import Mathlib

/-!
Verification of the tabular ingestion and normalization engine of the
voter-roll upload service (Express controller in
src/controllers/voterController.js).  The JavaScript source is shallowly
embedded: rows produced by the spreadsheet reader are association lists of
column label to cell string, the header-key normalizer, tiered field
resolvers (getVal, getField), the header-row locator, the per-row
transformer, the batched bulk-insert loop and the search-script classifier
are translated as executable Lean functions, and the specification claims
are settled as theorems about those functions.
-/

set_option maxHeartbeats 1000000

/-- A raw sheet row: ordered mapping from column label to cell value, both
strings (the reader is invoked with a default value of the empty string, so
every cell is a string in the embedding). -/
abbrev RawRow := List (String × String)

/-- Character class of the JavaScript whitespace escape used by trim and
the whitespace regexes: ASCII whitespace, NBSP, the Unicode space block,
line/paragraph separators, narrow/medium spaces, ideographic space, BOM. -/
def isJsSpace (c : Char) : Bool :=
  c.toNat == 32 || c.toNat == 9 || c.toNat == 10 || c.toNat == 13 ||
  c.toNat == 11 || c.toNat == 12 || c.toNat == 160 || c.toNat == 0x1680 ||
  (0x2000 ≤ c.toNat && c.toNat ≤ 0x200A) || c.toNat == 0x2028 ||
  c.toNat == 0x2029 || c.toNat == 0x202F || c.toNat == 0x205F ||
  c.toNat == 0x3000 || c.toNat == 0xFEFF

/-- JavaScript String.prototype.trim: strip leading and trailing whitespace. -/
def jsTrim (s : String) : String :=
  String.mk (((s.data.dropWhile isJsSpace).reverse.dropWhile isJsSpace).reverse)

/-- ASCII lowercasing of one character.  The source uses toLowerCase; every
cased character appearing in the candidate label tables is ASCII, so ASCII
folding is an exact model on the relevant inputs. -/
def lowerChar (c : Char) : Char :=
  if 65 ≤ c.toNat ∧ c.toNat ≤ 90 then Char.ofNat (c.toNat + 32) else c

/-- Lowercase a whole string. -/
def lowerStr (s : String) : String :=
  String.mk (s.data.map lowerChar)

/-- Helper for collapsing whitespace runs: the flag records whether the
previous character was whitespace (in which case further whitespace is
dropped rather than emitted). -/
def collapseAux : Bool → List Char → List Char
  | _, [] => []
  | inRun, c :: rest =>
    if isJsSpace c then
      if inRun then collapseAux true rest
      else Char.ofNat 32 :: collapseAux true rest
    else c :: collapseAux false rest

/-- JavaScript replace of every whitespace run by a single space. -/
def collapseWs (s : String) : String :=
  String.mk (collapseAux false s.data)

/-- Characters removed by the normalizer regex: period, Devanagari danda,
colon, parentheses, hyphen, underscore, slash. -/
def isKeyPunct (c : Char) : Bool :=
  c.toNat == 46 || c.toNat == 0x964 || c.toNat == 58 || c.toNat == 40 ||
  c.toNat == 41 || c.toNat == 45 || c.toNat == 95 || c.toNat == 47

/-- normalizeKey from the controller: trim, lowercase, delete the
punctuation class, collapse whitespace runs to one space, trim again. -/
def normalizeKey (s : String) : String :=
  jsTrim (collapseWs (String.mk ((lowerStr (jsTrim s)).data.filter
    (fun c => !isKeyPunct c))))

/-- Deletion of every whitespace character and underscore after trimming
and lowercasing; the second matching tier of getVal and getField. -/
def stripWsUnderscore (s : String) : String :=
  String.mk ((lowerStr (jsTrim s)).data.filter
    (fun c => !(isJsSpace c || c.toNat == 95)))

/-- Deletion of every whitespace character (underscores kept) after
trimming and lowercasing; the third matching tier of getField. -/
def stripWs (s : String) : String :=
  String.mk ((lowerStr (jsTrim s)).data.filter (fun c => !isJsSpace c))

/-- Character-list prefix test (pattern first, haystack second). -/
def prefixCL : List Char → List Char → Bool
  | [], _ => true
  | _ :: _, [] => false
  | p :: ps, h :: hs => p == h && prefixCL ps hs

/-- Character-list substring containment, the model of the JavaScript
String.prototype.includes used for the partial-match tier. -/
def infixCL : List Char → List Char → Bool
  | hay, pat =>
    if prefixCL pat hay then true
    else
      match hay with
      | [] => false
      | _ :: t => infixCL t pat

/-- String substring containment: strIncludes hay pat is true when pat
occurs contiguously inside hay. -/
def strIncludes (hay pat : String) : Bool :=
  infixCL hay.data pat.data

/-- String prefix test mirroring the regex test of Unknown-placeholder
names anchored at the start of the string. -/
def strHasPrefix (s pre : String) : Bool :=
  prefixCL pre.data s.data

/-- First value stored under an exactly matching key (JavaScript property
lookup on the row object). -/
def rowLookup : RawRow → String → Option String
  | [], _ => none
  | (k, v) :: rest, key => if k = key then some v else rowLookup rest key

/-- First tier of getVal for one candidate: scan the row entries in order,
skip empty cells, return the trimmed value of the first key equal to the
candidate after trim and case-fold, or equal after additionally collapsing
whitespace runs. -/
def getValT1One (cand : String) : RawRow → Option String
  | [] => none
  | (k, v) :: rest =>
    if v = "" then getValT1One cand rest
    else if lowerStr (jsTrim k) = lowerStr (jsTrim cand) then some (jsTrim v)
    else if lowerStr (collapseWs (jsTrim k)) = lowerStr (collapseWs (jsTrim cand)) then
      some (jsTrim v)
    else getValT1One cand rest

/-- First tier of getVal over the candidate list. -/
def getValT1 (row : RawRow) : List String → Option String
  | [] => none
  | c :: cs =>
    match getValT1One c row with
    | some v => some v
    | none => getValT1 row cs

/-- Second tier of getVal for one candidate: equality after removing
whitespace and underscores. -/
def getValT2One (cand : String) : RawRow → Option String
  | [] => none
  | (k, v) :: rest =>
    if v = "" then getValT2One cand rest
    else if stripWsUnderscore k = stripWsUnderscore cand then some (jsTrim v)
    else getValT2One cand rest

/-- Second tier of getVal over the candidate list. -/
def getValT2 (row : RawRow) : List String → Option String
  | [] => none
  | c :: cs =>
    match getValT2One c row with
    | some v => some v
    | none => getValT2 row cs

/-- Assignment into a JavaScript object modelled as an association list:
an existing key keeps its position and receives the new value, a new key
is appended. -/
def assocSet : RawRow → String → String → RawRow
  | [], k, v => [(k, v)]
  | (k0, v0) :: rest, k, v =>
    if k0 = k then (k0, v) :: rest else (k0, v0) :: assocSet rest k v

/-- The normRow object of getVal: every row entry assigned in order under
its normalized key, later assignments overwriting earlier ones. -/
def normRowOf (row : RawRow) : RawRow :=
  row.foldl (fun acc p => assocSet acc (normalizeKey p.1) p.2) []

/-- Third tier of getVal: for each candidate in order, if the normalized
candidate is a key of normRow holding a non-empty value, return that value
trimmed. -/
def getValT3 (nr : RawRow) : List String → Option String
  | [] => none
  | c :: cs =>
    match rowLookup nr (normalizeKey c) with
    | some v => if v = "" then getValT3 nr cs else some (jsTrim v)
    | none => getValT3 nr cs

/-- Fourth tier of getVal: scan the normRow entries in order, skip empty
values, return the trimmed value of the first key containing some
non-empty normalized candidate as a substring. -/
def getValT4 (flex : List String) : RawRow → Option String
  | [] => none
  | (k, v) :: rest =>
    if v = "" then getValT4 flex rest
    else if flex.any (fun f => f ≠ "" && strIncludes k f) then some (jsTrim v)
    else getValT4 flex rest

/-- getVal from the controller: try the four tiers in order and fall back
to the empty string. -/
def getVal (row : RawRow) (candidates : List String) : String :=
  match getValT1 row candidates with
  | some v => v
  | none =>
    match getValT2 row candidates with
    | some v => v
    | none =>
      let nr := normRowOf row
      match getValT3 nr candidates with
      | some v => v
      | none =>
        match getValT4 (candidates.map normalizeKey) nr with
        | some v => v
        | none => ""

/-- First tier of getField: scan the candidate names in order and return
the trimmed value of the first one that is literally a key of the row.
The trimmed value is returned even when it is empty, terminating the
resolution. -/
def getFieldA (row : RawRow) : List String → Option String
  | [] => none
  | n :: ns =>
    match rowLookup row n with
    | some v => some (jsTrim v)
    | none => getFieldA row ns

/-- Scan the row entries in order and return the trimmed value of the
first key equal to the target under the supplied key normalization. -/
def findByNorm (f : String → String) (target : String) : RawRow → Option String
  | [] => none
  | (k, v) :: rest =>
    if f k = target then some (jsTrim v) else findByNorm f target rest

/-- Second tier of getField: case-insensitive match after removing spaces
and underscores from both names; returns even an empty trimmed value. -/
def getFieldB (row : RawRow) : List String → Option String
  | [] => none
  | n :: ns =>
    match findByNorm stripWsUnderscore (stripWsUnderscore n) row with
    | some v => some v
    | none => getFieldB row ns

/-- Third tier of getField: case-insensitive match after removing spaces
only; returns even an empty trimmed value. -/
def getFieldC (row : RawRow) : List String → Option String
  | [] => none
  | n :: ns =>
    match findByNorm stripWs (stripWs n) row with
    | some v => some v
    | none => getFieldC row ns

/-- getField from the row transformer: direct key lookup, then
space-and-underscore-insensitive lookup, then space-insensitive lookup,
falling back to getVal as the last resort. -/
def getField (row : RawRow) (possibleNames : List String) : String :=
  match getFieldA row possibleNames with
  | some v => v
  | none =>
    match getFieldB row possibleNames with
    | some v => v
    | none =>
      match getFieldC row possibleNames with
      | some v => v
      | none => getVal row possibleNames

/-- The direct-access-then-getField pattern of the transformer: read the
exact column first, and when that gives an empty trimmed value resolve
through getField with the variation list. -/
def directThenField (row : RawRow) (key : String) (names : List String) : String :=
  let d :=
    match rowLookup row key with
    | some v => jsTrim v
    | none => ""
  if d = "" then getField row names else d

/-- Decimal digit value of a character, if any. -/
def digitVal (c : Char) : Option Nat :=
  if 48 ≤ c.toNat ∧ c.toNat ≤ 57 then some (c.toNat - 48) else none

/-- Hexadecimal digit value of a character, if any. -/
def hexVal (c : Char) : Option Nat :=
  if 48 ≤ c.toNat ∧ c.toNat ≤ 57 then some (c.toNat - 48)
  else if 97 ≤ c.toNat ∧ c.toNat ≤ 102 then some (c.toNat - 87)
  else if 65 ≤ c.toNat ∧ c.toNat ≤ 70 then some (c.toNat - 55)
  else none

/-- Accumulate the leading digits of a character list under the given
digit reader; none when no digit was consumed (the NaN case). -/
def takeDigits (f : Char → Option Nat) (base : Nat) :
    List Char → Nat → Bool → Option Nat
  | [], acc, seen => if seen then some acc else none
  | c :: rest, acc, seen =>
    match f c with
    | some d => takeDigits f base rest (acc * base + d) true
    | none => if seen then some acc else none

/-- JavaScript parseInt with no explicit radix: skip leading whitespace,
read an optional sign, detect a hexadecimal prefix, and parse the longest
leading digit run; none models NaN. -/
def parseIntJS (s : String) : Option Int :=
  let cs := s.data.dropWhile isJsSpace
  let signed : Int × List Char :=
    match cs with
    | c :: r =>
      if c.toNat == 43 then (1, r)
      else if c.toNat == 45 then (-1, r)
      else (1, cs)
    | [] => (1, cs)
  let body := signed.2
  let mag : Option Nat :=
    match body with
    | c0 :: c1 :: r =>
      if c0.toNat == 48 ∧ (c1.toNat == 120 ∨ c1.toNat == 88) then
        takeDigits hexVal 16 r 0 false
      else takeDigits digitVal 10 body 0 false
    | _ => takeDigits digitVal 10 body 0 false
  mag.map (fun n => signed.1 * (n : Int))

/-- `parseInt(ageRaw || 0) || 0` from the transformer: an empty resolved
age behaves as the number zero, a NaN parse collapses to zero, and any
parsed integer (also a negative one) is kept. -/
def ageOf (raw : String) : Int :=
  if raw = "" then 0
  else
    match parseIntJS raw with
    | some n => n
    | none => 0

/-- The canonical persisted record built by the row transformer. -/
structure VoterRecord where
  serialNumber : String
  houseNumber : String
  name : String
  name_mr : String
  gender : String
  gender_mr : String
  age : Int
  voterIdCard : String
  mobileNumber : String
deriving Repr, DecidableEq

/-- Candidate labels for the English name column. -/
def nameEnCands : List String :=
  ["Name_En", "Name En", "Name_English", "NameEnglish", "NameEn", "Name English"]

/-- Candidate labels for the Marathi name column. -/
def nameMrCands : List String :=
  ["Name_Mr", "Name Mr", "Name_Marathi", "NameMarathi", "NameMr", "Name Marathi"]

/-- Candidate labels for the English gender column. -/
def genderEnCands : List String :=
  ["Gender_En", "Gender En", "Gender_English", "GenderEnglish", "GenderEn", "Gender English"]

/-- Candidate labels for the Marathi gender column. -/
def genderMrCands : List String :=
  ["Gender_Mr", "Gender Mr", "Gender_Marathi", "GenderMarathi", "GenderMr", "Gender Marathi"]

/-- Candidate labels for the serial-number column. -/
def serialCands : List String :=
  ["SR_NO", "SR NO", "Sr_No", "Sr_Number", "Serial_Number", "SRNO",
   "अनु क्र.", "अनु क्र", "अनु क्र .", "अनु.क्र.", "अनु क्रमांक", "Serial Number",
   "Serial No", "Sr No", "Sr Number", "क्रमांक"]

/-- Candidate labels for the house-number column. -/
def houseCands : List String :=
  ["House_No", "House_Number", "HouseNo", "House No", "House no",
   "घर क्र.", "घर क्र", "घर क्र .", "House Number", "घर नंबर", "घर क्रमांक"]

/-- Candidate labels for the voter identity-card column. -/
def epicCands : List String :=
  ["Epic_id", "Epic_ID", "EpicId", "EPIC_ID", "Epic Id", "Epic id", "EPICID",
   "Voter ID", "Voter ID No", "Voter ID Number", "Voter Id Card", "Voter Id Card No",
   "Voter Card Number", "VoterCard No", "VoterID",
   "EPIC No", "EPIC Number", "EPIC", "Elector Photo Identity Card No", "ID Card No",
   "IDCard No", "ID Card Number", "Voter_ID",
   "मतदान कार्ड क्र.", "मतदान कार्ड क्र", "मतदान कार्ड क्र .", "मतदान कार्ड क्रमांक",
   "मतदार ओळखपत्र", "मतदार ओळखपत्र क्र.", "मतदार ओळख क्रमांक"]

/-- Candidate labels for the mobile-number column. -/
def mobileCands : List String :=
  ["Mobile_No", "Mobile_Number", "MobileNo", "Mobile No", "Mobile no",
   "मोबाईल नं.", "मोबाईल नं .", "मोबाईल", "Mobile Number", "Phone", "Phone Number",
   "Contact", "Contact Number"]

/-- Resolution of the English name exactly as the transformer performs it:
direct access to the Name_En column first, then getField over the
language-specific English variants only. -/
def resolveNameEn (row : RawRow) : String :=
  directThenField row "Name_En" nameEnCands

/-- Resolution of the Marathi name: direct access to the Name_Mr column
first, then getField over the language-specific Marathi variants only. -/
def resolveNameMr (row : RawRow) : String :=
  directThenField row "Name_Mr" nameMrCands

/-- Resolution of the English gender. -/
def resolveGenderEn (row : RawRow) : String :=
  directThenField row "Gender_En" genderEnCands

/-- Resolution of the Marathi gender. -/
def resolveGenderMr (row : RawRow) : String :=
  directThenField row "Gender_Mr" genderMrCands

/-- Resolution of the raw age cell. -/
def resolveAgeRaw (row : RawRow) : String :=
  getField row ["Age", "वय"]

/-- The serialNumber computation of the transformer: direct access to the
SR_NO column, then getField over the serial variants with a trailing
trim. -/
def serialField (row : RawRow) : String :=
  let d :=
    match rowLookup row "SR_NO" with
    | some v => jsTrim v
    | none => ""
  if d = "" then jsTrim (getField row serialCands) else d

/-- The voterIdCard computation of the transformer: direct access to the
Epic_id column, then getField over the EPIC variants with a trailing
trim. -/
def voterIdField (row : RawRow) : String :=
  let d :=
    match rowLookup row "Epic_id" with
    | some v => jsTrim v
    | none => ""
  if d = "" then jsTrim (getField row epicCands) else d

/-- The name field after bilingual separation and the Unknown-placeholder
substitution: the trimmed English value when present, otherwise empty, and
the Unknown placeholder with the row index when the Marathi value is also
absent. -/
def nameField (row : RawRow) (index : Nat) : String :=
  let nameEnglish := resolveNameEn row
  let nameMarathi := resolveNameMr row
  let hasEnglish : Bool := nameEnglish ≠ "" && jsTrim nameEnglish ≠ ""
  let hasMarathi : Bool := nameMarathi ≠ "" && jsTrim nameMarathi ≠ ""
  let name0 := if hasEnglish then jsTrim nameEnglish else ""
  if (name0 = "" ∨ jsTrim name0 = "") ∧ hasMarathi = false then
    "Unknown_" ++ toString index
  else name0

/-- The name_mr field: the trimmed Marathi value when present, otherwise
empty; never populated from the English column. -/
def nameMrField (row : RawRow) : String :=
  let nameMarathi := resolveNameMr row
  if (nameMarathi ≠ "" && jsTrim nameMarathi ≠ "" : Bool) then jsTrim nameMarathi else ""

/-- The gender field: the trimmed English value when present, otherwise
empty; never populated from the Marathi column. -/
def genderField (row : RawRow) : String :=
  let genderEnglish := resolveGenderEn row
  if (genderEnglish ≠ "" && jsTrim genderEnglish ≠ "" : Bool) then jsTrim genderEnglish else ""

/-- The gender_mr field: the trimmed Marathi value when present, otherwise
empty. -/
def genderMrField (row : RawRow) : String :=
  let genderMarathi := resolveGenderMr row
  if (genderMarathi ≠ "" && jsTrim genderMarathi ≠ "" : Bool) then jsTrim genderMarathi else ""

/-- The record assembled from one row before the validity check. -/
def buildRecord (row : RawRow) (index : Nat) : VoterRecord where
  serialNumber := serialField row
  houseNumber := directThenField row "House_No" houseCands
  name := nameField row index
  name_mr := nameMrField row
  gender := genderField row
  gender_mr := genderMrField row
  age := ageOf (resolveAgeRaw row)
  voterIdCard := voterIdField row
  mobileNumber := directThenField row "Mobile_No" mobileCands

/-- The row transformer of the upload pipeline: resolve every logical
field, keep the two language slots of name and gender strictly separate,
substitute the Unknown placeholder when both name slots are empty, coerce
the age, and reject the row when the validity check fails (empty or
Unknown-prefixed name together with an empty Marathi name). -/
def transformRow (row : RawRow) (index : Nat) : Option VoterRecord :=
  if (nameField row index = "" ∨ strHasPrefix (nameField row index) "Unknown_") ∧
      (nameMrField row = "" ∨ jsTrim (nameMrField row) = "") then
    none
  else
    some (buildRecord row index)

/-- The seven logical-field token groups scored by the header locator. -/
def headerCandidates : List (List String) :=
  [["नाव", "नाम", "name", "full name", "name of elector", "elector name",
    "name english", "name marathi", "name_en", "name_mr", "name_english", "name_marathi"],
   ["अनु क्र", "serial", "sr no", "क्रमांक", "sr_no", "sr_no", "serial_number"],
   ["घर", "house", "house_no", "house_number", "house_no"],
   ["लिंग", "gender", "sex", "gender_en", "gender_mr", "gender_english", "gender_marathi"],
   ["वय", "age"],
   ["मतदान", "voter", "epic", "id card", "elector photo identity", "epic_id",
    "epic_id", "voter_id"],
   ["मोबाईल", "mobile", "phone", "contact", "mobile_no", "mobile_number"]]

/-- Whether a token group is found in a row of cells: some token, once
normalized, occurs as a substring of some non-empty normalized cell. -/
def groupFound (cells : List String) (group : List String) : Bool :=
  group.any (fun tok =>
    let nt := normalizeKey tok
    (cells.map normalizeKey).any (fun c => c ≠ "" && strIncludes c nt))

/-- Header score of one row: the number of token groups found in it. -/
def scoreRow (cells : List String) : Nat :=
  headerCandidates.foldl (fun sc group => if groupFound cells group then sc + 1 else sc) 0

/-- The header-scan loop: fold over the scanned rows carrying the current
best index and best score, replacing them only on a strictly higher
score.  Mirrors the loop with bestScore initialized to minus one. -/
def headerScanP : List (List String) → Nat → Nat → Int → Nat × Int
  | [], _, bi, bs => (bi, bs)
  | r :: rest, i, bi, bs =>
    if (scoreRow r : Int) > bs then headerScanP rest (i + 1) i (scoreRow r)
    else headerScanP rest (i + 1) bi bs

/-- Detected header-row index: scan at most the first twenty rows. -/
def bestHeaderRowIndex (rows : List (List String)) : Nat :=
  (headerScanP (rows.take 20) 0 0 (-1)).1

/-- The batch size of the bulk-insert loop. -/
def BATCH_SIZE : Nat := 1000

/-- Total batch count reported by the loop: the ceiling of the record
count divided by the batch size. -/
def totalBatches (n : Nat) : Nat := (n + BATCH_SIZE - 1) / BATCH_SIZE

/-- One pass of the bulk-insert loop over the validated records.  The
store is abstracted by a per-record failure predicate on the global index
and by the granularity of its bulk-error reporting: when a failing chunk
raises an error carrying per-record writeErrors, the loop records those
errors and adds nothing to the inserted count; when the error carries no
per-record detail, the loop retries the chunk one record at a time,
counting individual successes and failures.  Returns inserted count,
error count, and the recorded error indices in order. -/
def batchLoop (granular : Bool) (fails : Nat → Bool) :
    Nat → List Unit → Nat → Nat × Nat × List Nat
  | 0, _, _ => (0, 0, [])
  | _, [], _ => (0, 0, [])
  | fuel + 1, r :: rs, i =>
    let batch := (r :: rs).take BATCH_SIZE
    let rest := (r :: rs).drop BATCH_SIZE
    let failing := (List.range batch.length).filterMap
      (fun j => if fails (i + j) then some (i + j) else none)
    let here : Nat × Nat × List Nat :=
      if failing.isEmpty then (batch.length, 0, [])
      else if granular then (0, failing.length, failing)
      else (batch.length - failing.length, failing.length, failing)
    let later := batchLoop granular fails fuel rest (i + BATCH_SIZE)
    (here.1 + later.1, here.2.1 + later.2.1, here.2.2 ++ later.2.2)

/-- The ingestion report assembled by the upload handler: inserted count,
error count, and the error detail list truncated to the first ten
entries.  The structural fuel bounds the number of loop iterations; one
fuel unit per record is always sufficient because every iteration
consumes at least one record. -/
def ingestReport (granular : Bool) (fails : Nat → Bool) (records : List Unit) :
    Nat × Nat × List Nat :=
  let r := batchLoop granular fails records.length records 0
  (r.1, r.2.1, r.2.2.take 10)

/-- Modelled from the spec: isMarathiText of utils/transliteration.js is
not part of the supplied sources; per the Script Classifier contract it is
true exactly when the string contains at least one code point of the
Devanagari block. -/
def isMarathiText (s : String) : Bool :=
  s.data.any (fun c => 0x900 ≤ c.toNat && c.toNat ≤ 0x97F)

/-- Search-field selection of searchVoters: trim the query, classify its
script, and match against name_mr for Devanagari queries and name
otherwise. -/
def searchFieldFor (query : String) : String :=
  if isMarathiText (jsTrim query) then "name_mr" else "name"

/-- Trimming the empty string yields the empty string. -/
theorem jsTrim_empty : jsTrim "" = "" := rfl

/-- A list produced by dropWhile is a fixpoint of dropWhile. -/
theorem dropWhile_fix (p : Char → Bool) (l : List Char) :
    (l.dropWhile p).dropWhile p = l.dropWhile p := by
  induction l with
  | nil => rfl
  | cons c t ih =>
    by_cases h : p c
    · simp [List.dropWhile_cons, h, ih]
    · simp [List.dropWhile_cons, h]

/-- dropWhile never lengthens a list. -/
theorem dropWhile_length_le (p : Char → Bool) (l : List Char) :
    (l.dropWhile p).length ≤ l.length := by
  induction l with
  | nil => simp
  | cons c t ih =>
    by_cases h : p c
    · simp [List.dropWhile_cons, h]
      omega
    · simp [List.dropWhile_cons, h]

/-- A prefix of a dropWhile fixpoint is itself a dropWhile fixpoint. -/
theorem dropWhile_fix_of_prefix (p : Char → Bool) (l m : List Char)
    (hpre : l <+: m) (hm : m.dropWhile p = m) : l.dropWhile p = l := by
  cases l with
  | nil => rfl
  | cons c t =>
    obtain ⟨r, hr⟩ := hpre
    rw [List.cons_append] at hr
    subst hr
    rw [List.dropWhile_cons] at hm
    by_cases h : p c
    · rw [if_pos h] at hm
      have hlen := dropWhile_length_le p (t ++ r)
      rw [hm] at hlen
      simp at hlen
    · simp [List.dropWhile_cons, h]

/-- dropWhile returns a suffix of its input. -/
theorem dropWhile_isSuffix (p : Char → Bool) (l : List Char) :
    l.dropWhile p <:+ l :=
  ⟨l.takeWhile p, List.takeWhile_append_dropWhile p l⟩

/-- JavaScript trim is idempotent. -/
theorem jsTrim_idem (s : String) : jsTrim (jsTrim s) = jsTrim s := by
  unfold jsTrim
  apply congrArg String.mk
  show ((((((s.data.dropWhile isJsSpace).reverse.dropWhile
      isJsSpace).reverse).dropWhile isJsSpace).reverse.dropWhile isJsSpace).reverse) = _
  set A := s.data.dropWhile isJsSpace with hA
  set B := A.reverse.dropWhile isJsSpace with hB
  have hApre : A.dropWhile isJsSpace = A := by rw [hA, dropWhile_fix]
  have hBrev : B.reverse <+: A := by
    have hsuf : B <:+ A.reverse := by rw [hB]; exact dropWhile_isSuffix _ _
    have := List.reverse_prefix.mpr hsuf
    rwa [List.reverse_reverse] at this
  have h1 : B.reverse.dropWhile isJsSpace = B.reverse :=
    dropWhile_fix_of_prefix isJsSpace B.reverse A hBrev hApre
  have h2 : B.dropWhile isJsSpace = B := by rw [hB, dropWhile_fix]
  rw [h1, List.reverse_reverse, h2]

/-- A string with a non-empty trim is itself non-empty. -/
theorem ne_empty_of_jsTrim_ne {s : String} (h : jsTrim s ≠ "") : s ≠ "" := by
  intro he
  exact h (by rw [he]; rfl)

/-- A character list is a prefix of itself followed by anything. -/
theorem prefixCL_self_append (a b : List Char) : prefixCL a (a ++ b) = true := by
  induction a with
  | nil => rfl
  | cons c t ih => simp [prefixCL, ih]

/-- Appending after a string keeps it as a prefix. -/
theorem strHasPrefix_append (pre rest : String) :
    strHasPrefix (pre ++ rest) pre = true := by
  cases pre with
  | mk a =>
    cases rest with
    | mk b => exact prefixCL_self_append a b

/-- An if-then-else between none and some is none exactly when the
condition holds. -/
theorem ite_none_some_eq_none {α : Type} {c : Prop} [Decidable c] (a : α) :
    ((if c then none else some a) = none) ↔ c := by
  by_cases h : c <;> simp [h]

/-- Characterization of row rejection by the transformer: a row maps to
nothing exactly when the resolved Marathi name trims to empty and the
resolved English name trims to empty or carries the Unknown prefix. -/
theorem transformRow_none_iff (row : RawRow) (i : Nat) :
    transformRow row i = none ↔
      (jsTrim (resolveNameMr row) = "" ∧
        (jsTrim (resolveNameEn row) = "" ∨
          strHasPrefix (jsTrim (resolveNameEn row)) "Unknown_" = true)) := by
  by_cases hM : jsTrim (resolveNameMr row) = ""
  · by_cases hE : jsTrim (resolveNameEn row) = ""
    · simp [transformRow, nameField, nameMrField, hM, hE, strHasPrefix_append,
        ite_none_some_eq_none]
    · have hE' : resolveNameEn row ≠ "" := ne_empty_of_jsTrim_ne hE
      simp [transformRow, nameField, nameMrField, hM, hE, hE', jsTrim_idem,
        ite_none_some_eq_none]
  · have hM' : resolveNameMr row ≠ "" := ne_empty_of_jsTrim_ne hM
    simp [transformRow, nameField, nameMrField, hM, hM', jsTrim_idem,
      ite_none_some_eq_none]

/-- Shape of an accepted row with an empty English name and a present
Marathi name: the record keeps name empty and carries the trimmed Marathi
value, with no cross-population. -/
theorem transformRow_empty_en_shape (row : RawRow) (i : Nat)
    (hE : jsTrim (resolveNameEn row) = "")
    (hM : jsTrim (resolveNameMr row) ≠ "") :
    ∃ rec, transformRow row i = some rec ∧ rec.name = "" ∧
      rec.name_mr = jsTrim (resolveNameMr row) := by
  have hM' : resolveNameMr row ≠ "" := ne_empty_of_jsTrim_ne hM
  simp [transformRow, nameField, nameMrField, buildRecord, hE, hM, hM', jsTrim_idem]

/-- C1.  A row whose primary-script (English) name resolves to blank
while the secondary-script (Marathi) name resolves to a non-empty value
is transformed into a record with name equal to the empty string and
name_mr equal to the trimmed Marathi value; the primary field is never
backfilled from the secondary-script value. -/
theorem c1_no_crossscript_backfill (row : RawRow) (i : Nat)
    (hE : jsTrim (resolveNameEn row) = "")
    (hM : jsTrim (resolveNameMr row) ≠ "") :
    ∃ rec, transformRow row i = some rec ∧ rec.name = "" ∧
      rec.name_mr = jsTrim (resolveNameMr row) :=
  transformRow_empty_en_shape row i hE hM

/-- Witness for C1 at the specification example: a blank Name_En column
together with a Devanagari Name_Mr value yields an accepted record with
an empty name and the Marathi value preserved. -/
theorem c1_no_crossscript_backfill_witness :
    jsTrim (resolveNameEn [("Name_En", ""), ("Name_Mr", "अनिल कुमार")]) = "" ∧
    jsTrim (resolveNameMr [("Name_En", ""), ("Name_Mr", "अनिल कुमार")]) ≠ "" ∧
    ∃ rec, transformRow [("Name_En", ""), ("Name_Mr", "अनिल कुमार")] 0 = some rec ∧
      rec.name = "" ∧
      rec.name_mr = jsTrim (resolveNameMr [("Name_En", ""), ("Name_Mr", "अनिल कुमार")]) :=
  ⟨by decide, by decide,
   c1_no_crossscript_backfill [("Name_En", ""), ("Name_Mr", "अनिल कुमार")] 0
     (by decide) (by decide)⟩

/-- C2 counterexample.  A row whose English name cell genuinely holds the
value Unknown_5 (so the primary name does not resolve to empty) with an
empty Marathi cell is nevertheless rejected, refuting the claim that
rejection happens exactly when both names resolve to empty. -/
theorem c2_counterexample_unknown_prefixed :
    resolveNameEn [("Name_En", "Unknown_5"), ("Name_Mr", "")] = "Unknown_5" ∧
    transformRow [("Name_En", "Unknown_5"), ("Name_Mr", "")] 0 = none :=
  ⟨by decide, by decide⟩

/-- C2 (amended).  The transformer rejects a row exactly when the Marathi
name resolves to empty and the English name either resolves to empty or
begins with the Unknown prefix; in particular a row with an empty primary
name and a non-empty secondary name is accepted. -/
theorem c2_reject_iff_both_names_absent (row : RawRow) (i : Nat) :
    transformRow row i = none ↔
      (jsTrim (resolveNameMr row) = "" ∧
        (jsTrim (resolveNameEn row) = "" ∨
          strHasPrefix (jsTrim (resolveNameEn row)) "Unknown_" = true)) :=
  transformRow_none_iff row i

/-- Witness for C2: a row with both name columns blank is rejected, and a
row with a blank primary name but a present secondary name is not. -/
theorem c2_reject_iff_both_names_absent_witness :
    transformRow [("Name_En", ""), ("Name_Mr", "")] 0 = none ∧
    transformRow [("Name_En", ""), ("Name_Mr", "जॉन")] 0 ≠ none :=
  ⟨(c2_reject_iff_both_names_absent [("Name_En", ""), ("Name_Mr", "")] 0).mpr
     ⟨by decide, Or.inl (by decide)⟩,
   fun h => by
     have hr := (c2_reject_iff_both_names_absent [("Name_En", ""), ("Name_Mr", "जॉन")] 0).mp h
     revert hr
     decide⟩

/-- C4 counterexample.  A legacy sheet whose only name column is the
generic Name column: neither language-specific resolver finds anything
and the row is rejected, so the generic cross-script candidate set is
never consulted even though no language-specific name column exists. -/
theorem c4_counterexample_generic_name_ignored :
    resolveNameEn [("Name", "John"), ("Age", "30")] = "" ∧
    resolveNameMr [("Name", "John"), ("Age", "30")] = "" ∧
    transformRow [("Name", "John"), ("Age", "30")] 0 = none :=
  ⟨by decide, by decide, by decide⟩

/-- C4 (amended).  The transformer never consults the generic
cross-script candidate set: whenever both language-specific name
resolutions are empty the Unknown placeholder is substituted and the row
is rejected, regardless of any generic Name column present in the row. -/
theorem c4_no_generic_fallback (row : RawRow) (i : Nat)
    (hE : jsTrim (resolveNameEn row) = "")
    (hM : jsTrim (resolveNameMr row) = "") :
    transformRow row i = none :=
  (transformRow_none_iff row i).mpr ⟨hM, Or.inl hE⟩

/-- Witness for C4 at a concrete legacy row. -/
theorem c4_no_generic_fallback_witness :
    jsTrim (resolveNameEn [("Name", "राम")]) = "" ∧
    jsTrim (resolveNameMr [("Name", "राम")]) = "" ∧
    transformRow [("Name", "राम")] 0 = none :=
  ⟨by decide, by decide,
   c4_no_generic_fallback [("Name", "राम")] 0 (by decide) (by decide)⟩

/-- C10.  A row whose primary-script name genuinely resolves to a
non-empty value beginning with the literal prefix Unknown underscore,
with an empty secondary-script name, is rejected even though the
name-presence invariant is satisfied: the validity check treats any
Unknown-prefixed name as absent. -/
theorem c10_genuine_unknown_name_rejected (row : RawRow) (i : Nat)
    (_hne : jsTrim (resolveNameEn row) ≠ "")
    (hpfx : strHasPrefix (jsTrim (resolveNameEn row)) "Unknown_" = true)
    (hmr : jsTrim (resolveNameMr row) = "") :
    transformRow row i = none :=
  (transformRow_none_iff row i).mpr ⟨hmr, Or.inr hpfx⟩

/-- Witness for C10 at the concrete row with English name Unknown_5. -/
theorem c10_genuine_unknown_name_rejected_witness :
    jsTrim (resolveNameEn [("Name_En", "Unknown_5")]) ≠ "" ∧
    strHasPrefix (jsTrim (resolveNameEn [("Name_En", "Unknown_5")])) "Unknown_" = true ∧
    transformRow [("Name_En", "Unknown_5")] 0 = none :=
  ⟨by decide, by decide,
   c10_genuine_unknown_name_rejected [("Name_En", "Unknown_5")] 0
     (by decide) (by decide) (by decide)⟩

/-- Every record built by the transformer carries the age computed by the
parseInt coercion of the resolved age cell. -/
theorem transformRow_age (row : RawRow) (i : Nat) (rec : VoterRecord)
    (h : transformRow row i = some rec) :
    rec.age = ageOf (resolveAgeRaw row) := by
  unfold transformRow at h
  split at h
  · exact Option.noConfusion h
  · have hb := Option.some.inj h
    subst hb
    rfl

/-- C8 counterexample.  An age cell holding the string minus five parses
to the negative integer minus five, so the produced record's age field is
negative, refuting the non-negativity claim. -/
theorem c8_counterexample_negative_age :
    (transformRow [("Name_En", "John"), ("Age", "-5")] 0).map VoterRecord.age =
      some (-5) ∧ (-5 : Int) < 0 :=
  ⟨by decide, by decide⟩

/-- C8 (amended).  The age of every produced record is the parseInt
coercion of the resolved age cell: a parseable cell yields exactly the
parsed integer, which may be negative, while an unparsable or absent cell
yields zero; the coercion is a total function and never raises. -/
theorem c8_age_coercion (row : RawRow) (i : Nat) (rec : VoterRecord)
    (h : transformRow row i = some rec) :
    rec.age = ageOf (resolveAgeRaw row) ∧
    (resolveAgeRaw row = "45" → rec.age = 45) ∧
    (resolveAgeRaw row = "N/A" → rec.age = 0) ∧
    (resolveAgeRaw row = "" → rec.age = 0) ∧
    (resolveAgeRaw row = "-5" → rec.age = -5) := by
  have hage := transformRow_age row i rec h
  refine ⟨hage, ?_, ?_, ?_, ?_⟩ <;> intro hr <;> rw [hage, hr] <;> decide

/-- Witness for C8: the record produced from an age cell holding 45
carries age forty-five. -/
theorem c8_age_coercion_witness :
    (resolveAgeRaw [("Name_En", "John"), ("Age", "45")] = "45") ∧
    ∃ rec, transformRow [("Name_En", "John"), ("Age", "45")] 0 = some rec ∧
      rec.age = 45 :=
  ⟨by decide,
   ⟨buildRecord [("Name_En", "John"), ("Age", "45")] 0, by decide,
    (c8_age_coercion [("Name_En", "John"), ("Age", "45")] 0
      (buildRecord [("Name_En", "John"), ("Age", "45")] 0) (by decide)).2.1
      (by decide)⟩⟩

/-- A successful row lookup returns a pair of the row. -/
theorem rowLookup_mem (l : RawRow) (k v : String) (h : rowLookup l k = some v) :
    (k, v) ∈ l := by
  induction l with
  | nil => exact Option.noConfusion h
  | cons p rest ih =>
    obtain ⟨k0, v0⟩ := p
    rw [rowLookup] at h
    by_cases hk : k0 = k
    · rw [if_pos hk] at h
      subst hk
      rw [Option.some.inj h]
      exact List.mem_cons_self _ _
    · rw [if_neg hk] at h
      exact List.mem_cons_of_mem _ (ih h)

/-- Any value returned by the first tier of getVal for one candidate is
the trimmed value of a non-empty cell of the row, whose key matches the
candidate exactly after trim and case-fold or after additionally
collapsing whitespace. -/
theorem getValT1One_shape (c : String) (row : RawRow) (u : String)
    (h : getValT1One c row = some u) :
    ∃ p ∈ row, p.2 ≠ "" ∧
      (lowerStr (jsTrim p.1) = lowerStr (jsTrim c) ∨
        lowerStr (collapseWs (jsTrim p.1)) = lowerStr (collapseWs (jsTrim c))) ∧
      u = jsTrim p.2 := by
  induction row with
  | nil => exact Option.noConfusion h
  | cons p rest ih =>
    obtain ⟨k, v⟩ := p
    rw [getValT1One] at h
    split_ifs at h with h1 h2 h3
    · obtain ⟨q, hq, hprops⟩ := ih h
      exact ⟨q, List.mem_cons_of_mem _ hq, hprops⟩
    · exact ⟨(k, v), List.mem_cons_self _ _, h1, Or.inl h2, (Option.some.inj h).symm⟩
    · exact ⟨(k, v), List.mem_cons_self _ _, h1, Or.inr h3, (Option.some.inj h).symm⟩
    · obtain ⟨q, hq, hprops⟩ := ih h
      exact ⟨q, List.mem_cons_of_mem _ hq, hprops⟩

/-- If some row pair has a non-empty value and a key matching the
candidate exactly after trim and case-fold, the first tier finds a
value. -/
theorem getValT1One_found (c : String) (row : RawRow) (p : String × String)
    (hp : p ∈ row) (hv : p.2 ≠ "")
    (hm : lowerStr (jsTrim p.1) = lowerStr (jsTrim c)) :
    ∃ u, getValT1One c row = some u := by
  induction row with
  | nil => cases hp
  | cons q rest ih =>
    obtain ⟨k, v⟩ := q
    rw [getValT1One]
    rcases List.mem_cons.mp hp with heq | hmem
    · subst heq
      rw [if_neg hv, if_pos hm]
      exact ⟨jsTrim v, rfl⟩
    · split_ifs with h1 h2 h3
      · exact ih hmem
      · exact ⟨jsTrim v, rfl⟩
      · exact ⟨jsTrim v, rfl⟩
      · exact ih hmem

/-- Shape of a first-tier result over the whole candidate list. -/
theorem getValT1_shape (row : RawRow) (cands : List String) (u : String)
    (h : getValT1 row cands = some u) :
    ∃ c ∈ cands, ∃ p ∈ row, p.2 ≠ "" ∧
      (lowerStr (jsTrim p.1) = lowerStr (jsTrim c) ∨
        lowerStr (collapseWs (jsTrim p.1)) = lowerStr (collapseWs (jsTrim c))) ∧
      u = jsTrim p.2 := by
  induction cands with
  | nil => exact Option.noConfusion h
  | cons c cs ih =>
    rw [getValT1] at h
    cases hone : getValT1One c row with
    | some v =>
      rw [hone] at h
      obtain ⟨p, hp, hprops⟩ := getValT1One_shape c row v hone
      exact ⟨c, List.mem_cons_self _ _, p, hp, hprops.1, hprops.2.1,
        (Option.some.inj h).symm.trans hprops.2.2⟩
    | none =>
      rw [hone] at h
      obtain ⟨c', hc', hrest⟩ := ih h
      exact ⟨c', List.mem_cons_of_mem _ hc', hrest⟩

/-- If some candidate admits a first-tier exact match, the first tier
succeeds over the candidate list. -/
theorem getValT1_found (row : RawRow) (cands : List String) (c : String)
    (hc : c ∈ cands) (hex : ∃ u, getValT1One c row = some u) :
    ∃ u, getValT1 row cands = some u := by
  induction cands with
  | nil => cases hc
  | cons c0 cs ih =>
    rw [getValT1]
    cases hone : getValT1One c0 row with
    | some v => exact ⟨v, rfl⟩
    | none =>
      rcases List.mem_cons.mp hc with heq | hmem
      · subst heq
        obtain ⟨u, hu⟩ := hex
        rw [hu] at hone
        exact Option.noConfusion hone
      · exact ih hmem

/-- C6.  Tier ordering of the field resolver: whenever the row contains a
column whose label matches some candidate exactly after case-fold and
trim with a non-empty cell, getVal returns the trimmed value of a column
matched by the first (exact or whitespace-collapsed) tier — never the
value of a column matched only by the looser substring tier. -/
theorem c6_exact_match_wins (row : RawRow) (cands : List String)
    (hex : ∃ c ∈ cands, ∃ p ∈ row, p.2 ≠ "" ∧
      lowerStr (jsTrim p.1) = lowerStr (jsTrim c)) :
    ∃ p ∈ row, p.2 ≠ "" ∧
      (∃ c ∈ cands,
        lowerStr (jsTrim p.1) = lowerStr (jsTrim c) ∨
        lowerStr (collapseWs (jsTrim p.1)) = lowerStr (collapseWs (jsTrim c))) ∧
      getVal row cands = jsTrim p.2 := by
  obtain ⟨c, hc, p, hp, hv, hm⟩ := hex
  obtain ⟨u, hu⟩ := getValT1_found row cands c hc (getValT1One_found c row p hp hv hm)
  obtain ⟨c', hc', q, hq, hqv, hqm, hqu⟩ := getValT1_shape row cands u hu
  refine ⟨q, hq, hqv, ⟨c', hc', hqm⟩, ?_⟩
  rw [getVal, hu, ← hqu]

/-- Witness for C6: a row holding both a verbose column whose normalized
label merely contains the candidate and an exactly matching column; the
resolver returns the exact-match value Y, not the substring-match value
X. -/
theorem c6_exact_match_wins_witness :
    (∃ c ∈ ["EPIC"], ∃ p ∈ [("EPIC Card Number (old)", "X"), ("EPIC", "Y")],
      p.2 ≠ "" ∧ lowerStr (jsTrim p.1) = lowerStr (jsTrim c)) ∧
    (∃ p ∈ [("EPIC Card Number (old)", "X"), ("EPIC", "Y")], p.2 ≠ "" ∧
      (∃ c ∈ ["EPIC"],
        lowerStr (jsTrim p.1) = lowerStr (jsTrim c) ∨
        lowerStr (collapseWs (jsTrim p.1)) = lowerStr (collapseWs (jsTrim c))) ∧
      getVal [("EPIC Card Number (old)", "X"), ("EPIC", "Y")] ["EPIC"] = jsTrim p.2) :=
  ⟨by decide,
   c6_exact_match_wins [("EPIC Card Number (old)", "X"), ("EPIC", "Y")] ["EPIC"]
     (by decide)⟩

/-- Any value returned by the second tier of getVal for one candidate is
the trimmed value of a non-empty cell of the row. -/
theorem getValT2One_mem (c : String) (row : RawRow) (u : String)
    (h : getValT2One c row = some u) :
    ∃ p ∈ row, p.2 ≠ "" ∧ u = jsTrim p.2 := by
  induction row with
  | nil => exact Option.noConfusion h
  | cons p rest ih =>
    obtain ⟨k, v⟩ := p
    rw [getValT2One] at h
    split_ifs at h with h1 h2
    · obtain ⟨q, hq, hprops⟩ := ih h
      exact ⟨q, List.mem_cons_of_mem _ hq, hprops⟩
    · exact ⟨(k, v), List.mem_cons_self _ _, h1, (Option.some.inj h).symm⟩
    · obtain ⟨q, hq, hprops⟩ := ih h
      exact ⟨q, List.mem_cons_of_mem _ hq, hprops⟩

/-- Any value returned by the second tier over the candidate list comes
from a non-empty cell of the row. -/
theorem getValT2_mem (row : RawRow) (cands : List String) (u : String)
    (h : getValT2 row cands = some u) :
    ∃ p ∈ row, p.2 ≠ "" ∧ u = jsTrim p.2 := by
  induction cands with
  | nil => exact Option.noConfusion h
  | cons c cs ih =>
    rw [getValT2] at h
    cases hone : getValT2One c row with
    | some v =>
      rw [hone] at h
      obtain ⟨p, hp, hprops⟩ := getValT2One_mem c row v hone
      exact ⟨p, hp, hprops.1, (Option.some.inj h).symm.trans hprops.2⟩
    | none =>
      rw [hone] at h
      exact ih h

/-- Membership in an association-list assignment: every pair of the
result is a pair of the original list or carries the assigned value. -/
theorem assocSet_mem (l : RawRow) (k v : String) (q : String × String)
    (h : q ∈ assocSet l k v) : q ∈ l ∨ q.2 = v := by
  induction l with
  | nil =>
    rw [assocSet] at h
    rcases List.mem_singleton.mp h with rfl
    exact Or.inr rfl
  | cons p rest ih =>
    obtain ⟨k0, v0⟩ := p
    rw [assocSet] at h
    split_ifs at h with hk
    · rcases List.mem_cons.mp h with rfl | hmem
      · exact Or.inr rfl
      · exact Or.inl (List.mem_cons_of_mem _ hmem)
    · rcases List.mem_cons.mp h with rfl | hmem
      · exact Or.inl (List.mem_cons_self _ _)
      · rcases ih hmem with hin | hval
        · exact Or.inl (List.mem_cons_of_mem _ hin)
        · exact Or.inr hval

/-- Every value of the normRow accumulator fold originates in the
accumulator or in some remaining row entry. -/
theorem foldl_assocSet_mem (l : RawRow) :
    ∀ acc : RawRow, ∀ q : String × String,
      q ∈ l.foldl (fun acc p => assocSet acc (normalizeKey p.1) p.2) acc →
      q ∈ acc ∨ ∃ p ∈ l, q.2 = p.2 := by
  induction l with
  | nil =>
    intro acc q h
    exact Or.inl h
  | cons p rest ih =>
    intro acc q h
    rw [List.foldl_cons] at h
    rcases ih (assocSet acc (normalizeKey p.1) p.2) q h with hacc | ⟨p', hp', hval⟩
    · rcases assocSet_mem acc (normalizeKey p.1) p.2 q hacc with hin | hval
      · exact Or.inl hin
      · exact Or.inr ⟨p, List.mem_cons_self _ _, hval⟩
    · exact Or.inr ⟨p', List.mem_cons_of_mem _ hp', hval⟩

/-- Every value of the normRow object is the value of some row entry. -/
theorem normRowOf_mem (row : RawRow) (q : String × String)
    (h : q ∈ normRowOf row) : ∃ p ∈ row, q.2 = p.2 := by
  rcases foldl_assocSet_mem row [] q h with hacc | hval
  · cases hacc
  · exact hval

/-- Any value returned by the third tier of getVal is the trimmed value
of a non-empty entry of the normRow object. -/
theorem getValT3_mem (nr : RawRow) (cands : List String) (u : String)
    (h : getValT3 nr cands = some u) :
    ∃ q ∈ nr, q.2 ≠ "" ∧ u = jsTrim q.2 := by
  induction cands with
  | nil => exact Option.noConfusion h
  | cons c cs ih =>
    rw [getValT3] at h
    split at h
    next v hlook =>
      split_ifs at h with hv
      · exact ih h
      · exact ⟨(normalizeKey c, v), rowLookup_mem nr _ v hlook, hv,
          (Option.some.inj h).symm⟩
    next hlook => exact ih h

/-- Any value returned by the fourth (substring) tier of getVal is the
trimmed value of a non-empty entry of the scanned list. -/
theorem getValT4_mem (flex : List String) (nr : RawRow) (u : String)
    (h : getValT4 flex nr = some u) :
    ∃ q ∈ nr, q.2 ≠ "" ∧ u = jsTrim q.2 := by
  induction nr with
  | nil => exact Option.noConfusion h
  | cons p rest ih =>
    obtain ⟨k, v⟩ := p
    rw [getValT4] at h
    split_ifs at h with h1 h2
    · obtain ⟨q, hq, hprops⟩ := ih h
      exact ⟨q, List.mem_cons_of_mem _ hq, hprops⟩
    · exact ⟨(k, v), List.mem_cons_self _ _, h1, (Option.some.inj h).symm⟩
    · obtain ⟨q, hq, hprops⟩ := ih h
      exact ⟨q, List.mem_cons_of_mem _ hq, hprops⟩

/-- getVal returns the first-tier value when that tier succeeds. -/
theorem getVal_eq_of_t1 (row : RawRow) (cands : List String) (v : String)
    (h1 : getValT1 row cands = some v) : getVal row cands = v := by
  simp only [getVal, h1]

/-- getVal returns the second-tier value when the first tier fails. -/
theorem getVal_eq_of_t2 (row : RawRow) (cands : List String) (v : String)
    (h1 : getValT1 row cands = none) (h2 : getValT2 row cands = some v) :
    getVal row cands = v := by
  simp only [getVal, h1, h2]

/-- getVal returns the third-tier value when the first two tiers fail. -/
theorem getVal_eq_of_t3 (row : RawRow) (cands : List String) (v : String)
    (h1 : getValT1 row cands = none) (h2 : getValT2 row cands = none)
    (h3 : getValT3 (normRowOf row) cands = some v) : getVal row cands = v := by
  simp only [getVal, h1, h2, h3]

/-- getVal returns the fourth-tier value when the first three fail. -/
theorem getVal_eq_of_t4 (row : RawRow) (cands : List String) (v : String)
    (h1 : getValT1 row cands = none) (h2 : getValT2 row cands = none)
    (h3 : getValT3 (normRowOf row) cands = none)
    (h4 : getValT4 (cands.map normalizeKey) (normRowOf row) = some v) :
    getVal row cands = v := by
  simp only [getVal, h1, h2, h3, h4]

/-- getVal falls back to the empty string when every tier fails. -/
theorem getVal_eq_empty (row : RawRow) (cands : List String)
    (h1 : getValT1 row cands = none) (h2 : getValT2 row cands = none)
    (h3 : getValT3 (normRowOf row) cands = none)
    (h4 : getValT4 (cands.map normalizeKey) (normRowOf row) = none) :
    getVal row cands = "" := by
  simp only [getVal, h1, h2, h3, h4]

/-- Any non-empty result of getVal originates in a non-empty cell of the
row and is returned trimmed. -/
theorem getVal_origin (row : RawRow) (cands : List String) :
    getVal row cands = "" ∨
      ∃ p ∈ row, p.2 ≠ "" ∧ getVal row cands = jsTrim p.2 := by
  cases h1 : getValT1 row cands with
  | some v =>
    obtain ⟨_, _, p, hp, hv, _, hu⟩ := getValT1_shape row cands v h1
    exact Or.inr ⟨p, hp, hv, (getVal_eq_of_t1 row cands v h1).trans hu⟩
  | none =>
    cases h2 : getValT2 row cands with
    | some v =>
      obtain ⟨p, hp, hv, hu⟩ := getValT2_mem row cands v h2
      exact Or.inr ⟨p, hp, hv, (getVal_eq_of_t2 row cands v h1 h2).trans hu⟩
    | none =>
      cases h3 : getValT3 (normRowOf row) cands with
      | some v =>
        obtain ⟨q, hq, hqv, hqu⟩ := getValT3_mem (normRowOf row) cands v h3
        obtain ⟨p, hp, hval⟩ := normRowOf_mem row q hq
        rw [hval] at hqv hqu
        exact Or.inr ⟨p, hp, hqv, (getVal_eq_of_t3 row cands v h1 h2 h3).trans hqu⟩
      | none =>
        cases h4 : getValT4 (cands.map normalizeKey) (normRowOf row) with
        | some v =>
          obtain ⟨q, hq, hqv, hqu⟩ := getValT4_mem (cands.map normalizeKey)
            (normRowOf row) v h4
          obtain ⟨p, hp, hval⟩ := normRowOf_mem row q hq
          rw [hval] at hqv hqu
          exact Or.inr ⟨p, hp, hqv, (getVal_eq_of_t4 row cands v h1 h2 h3 h4).trans hqu⟩
        | none => exact Or.inl (getVal_eq_empty row cands h1 h2 h3 h4)

/-- C5 counterexample.  A row whose Age column matches the first
candidate but holds an empty cell: getField stops at the empty matched
cell and yields empty, even though the next candidate matches a non-empty
cell holding 45 — resolution does not continue past an empty matched
cell. -/
theorem c5_counterexample_empty_cell_stops_getField :
    getField [("Age", ""), ("वय", "45")] ["Age", "वय"] = "" ∧
    getField [("Age", ""), ("वय", "45")] ["वय"] = "45" :=
  ⟨by decide, by decide⟩

/-- C5 (amended).  getVal treats empty cells as absent at every tier: a
non-empty result is always the trimmed value of some non-empty cell of
the row.  getField, by contrast, returns the trimmed value of the first
candidate that is literally a key of the row even when that cell is
empty, terminating resolution there instead of continuing. -/
theorem c5_empty_cells_and_trimming :
    (∀ (row : RawRow) (cands : List String),
      getVal row cands = "" ∨
        ∃ p ∈ row, p.2 ≠ "" ∧ getVal row cands = jsTrim p.2) ∧
    (∀ (row : RawRow) (names : List String) (v : String),
      getFieldA row names = some v → getField row names = v) := by
  constructor
  · exact getVal_origin
  · intro row names v h
    rw [getField, h]

/-- Witness for C5: the getVal alternative at a one-column row, and the
getField clause at a row whose first matching key holds an empty cell. -/
theorem c5_empty_cells_and_trimming_witness :
    (getVal [("Name_En", " John ")] ["Name_En"] = "" ∨
      ∃ p ∈ [("Name_En", " John ")], p.2 ≠ "" ∧
        getVal [("Name_En", " John ")] ["Name_En"] = jsTrim p.2) ∧
    getField [("Gender_En", "")] ["Gender_En", "Gender En"] = "" :=
  ⟨c5_empty_cells_and_trimming.1 [("Name_En", " John ")] ["Name_En"],
   c5_empty_cells_and_trimming.2 [("Gender_En", "")] ["Gender_En", "Gender En"] ""
     (by decide)⟩

/-- Invariant of the header-scan fold: the final best score dominates the
initial best score and every scanned row score; the final best pair is
either the initial one or a strictly improving row of the list; and every
scanned row strictly before the final best index scores strictly below
the final best score. -/
theorem headerScanP_spec (l : List (List String)) :
    ∀ (i bi : Nat) (bs : Int), bi ≤ i →
      bs ≤ (headerScanP l i bi bs).2 ∧
      ((headerScanP l i bi bs).1 = bi ∧ (headerScanP l i bi bs).2 = bs ∨
        ∃ j, j < l.length ∧ (headerScanP l i bi bs).1 = i + j ∧
          (headerScanP l i bi bs).2 = (scoreRow (l.getD j []) : Int) ∧
          bs < (headerScanP l i bi bs).2) ∧
      (∀ j, j < l.length →
        (scoreRow (l.getD j []) : Int) ≤ (headerScanP l i bi bs).2) ∧
      (∀ j, j < l.length → i + j < (headerScanP l i bi bs).1 →
        (scoreRow (l.getD j []) : Int) < (headerScanP l i bi bs).2) := by
  induction l with
  | nil =>
    intro i bi bs _
    refine ⟨le_refl _, Or.inl ⟨rfl, rfl⟩, ?_, ?_⟩ <;> intro j hj <;> simp at hj
  | cons r t ih =>
    intro i bi bs hbi
    rw [headerScanP]
    by_cases h : (scoreRow r : Int) > bs
    · rw [if_pos h]
      obtain ⟨Q0, Q1, Q2, Q3⟩ := ih (i + 1) i (scoreRow r) (Nat.le_succ i)
      refine ⟨le_of_lt (lt_of_lt_of_le h Q0), ?_, ?_, ?_⟩
      · rcases Q1 with ⟨hidx, hsc⟩ | ⟨j', hj', hidx, hsc, hgt⟩
        · refine Or.inr ⟨0, by simp, by rw [hidx]; omega, by rw [hsc]; rfl, ?_⟩
          rw [hsc]
          exact h
        · refine Or.inr ⟨j' + 1, by simpa using hj', by rw [hidx]; omega, ?_, ?_⟩
          · rw [hsc, List.getD_cons_succ]
          · exact lt_trans h hgt
      · intro j hj
        cases j with
        | zero => exact Q0
        | succ j =>
          rw [List.getD_cons_succ]
          exact Q2 j (by simpa using hj)
      · intro j hj hlt
        cases j with
        | zero =>
          rcases Q1 with ⟨hidx, _⟩ | ⟨j', _, _, _, hgt⟩
          · rw [hidx] at hlt
            omega
          · exact hgt
        | succ j =>
          rw [List.getD_cons_succ]
          exact Q3 j (by simpa using hj) (by omega)
    · rw [if_neg h]
      have hle : (scoreRow r : Int) ≤ bs := not_lt.mp h
      obtain ⟨Q0, Q1, Q2, Q3⟩ := ih (i + 1) bi bs (Nat.le_succ_of_le hbi)
      refine ⟨Q0, ?_, ?_, ?_⟩
      · rcases Q1 with ⟨hidx, hsc⟩ | ⟨j', hj', hidx, hsc, hgt⟩
        · exact Or.inl ⟨hidx, hsc⟩
        · refine Or.inr ⟨j' + 1, by simpa using hj', by rw [hidx]; omega, ?_, hgt⟩
          rw [hsc, List.getD_cons_succ]
      · intro j hj
        cases j with
        | zero => exact le_trans hle Q0
        | succ j =>
          rw [List.getD_cons_succ]
          exact Q2 j (by simpa using hj)
      · intro j hj hlt
        cases j with
        | zero =>
          rcases Q1 with ⟨hidx, _⟩ | ⟨j', _, _, _, hgt⟩
          · rw [hidx] at hlt
            omega
          · exact lt_of_le_of_lt hle hgt
        | succ j =>
          rw [List.getD_cons_succ]
          exact Q3 j (by simpa using hj) (by omega)

/-- C7.  The header locator scans the first min(rowCount, 20) rows and
returns the index of the row with the strictly highest token-group score;
on a tie the earliest (lowest) index wins. -/
theorem c7_header_locator_argmax (rows : List (List String)) (hne : rows ≠ []) :
    bestHeaderRowIndex rows < min rows.length 20 ∧
    ∀ j, j < min rows.length 20 →
      scoreRow (rows.getD j []) ≤
        scoreRow (rows.getD (bestHeaderRowIndex rows) []) ∧
      (scoreRow (rows.getD j []) =
          scoreRow (rows.getD (bestHeaderRowIndex rows) []) →
        bestHeaderRowIndex rows ≤ j) := by
  obtain ⟨Q0, Q1, Q2, Q3⟩ := headerScanP_spec (rows.take 20) 0 0 (-1) (Nat.le_refl 0)
  have hlen : (rows.take 20).length = min rows.length 20 := by
    simp [List.length_take, Nat.min_comm]
  have hlpos : 0 < (rows.take 20).length := by
    rw [hlen]
    have : 0 < rows.length := List.length_pos.mpr hne
    omega
  have hgetD : ∀ j, j < min rows.length 20 →
      (rows.take 20).getD j [] = rows.getD j [] := by
    intro j hj
    have hj20 : j < 20 := lt_of_lt_of_le hj (min_le_right _ _)
    simp [List.getD_eq_getElem?_getD, List.getElem?_take, hj20]
  rcases Q1 with ⟨_, hsc⟩ | ⟨j0, hj0, hidx, hsc, _⟩
  · exfalso
    have hle := Q2 0 hlpos
    rw [hsc] at hle
    have hnn : (0 : Int) ≤ (scoreRow ((rows.take 20).getD 0 []) : Int) :=
      Int.natCast_nonneg _
    omega
  · have hbest : bestHeaderRowIndex rows = j0 := by
      rw [bestHeaderRowIndex, hidx]
      omega
    have hj0m : j0 < min rows.length 20 := by rw [← hlen]; exact hj0
    refine ⟨by rw [hbest]; exact hj0m, ?_⟩
    intro j hj
    have hjl : j < (rows.take 20).length := by rw [hlen]; exact hj
    have hle := Q2 j hjl
    rw [hsc, hgetD j hj, hgetD j0 hj0m] at hle
    rw [hbest]
    constructor
    · exact_mod_cast hle
    · intro heq
      by_contra hclt
      push_neg at hclt
      have hstrict := Q3 j hjl (by rw [hidx]; omega)
      rw [hsc, hgetD j hj, hgetD j0 hj0m] at hstrict
      rw [heq] at hstrict
      omega

set_option maxRecDepth 8192

/-- The batch loop over no remaining records contributes nothing. -/
theorem batchLoop_nil (g : Bool) (f : Nat → Bool) (fuel i : Nat) :
    batchLoop g f fuel [] i = (0, 0, []) := by
  cases fuel <;> rfl

/-- One unfolding of the batch loop over a replicated record list:
the chunk holds min(batchSize, remaining) records and the loop recurses
on the remainder. -/
theorem batchLoop_replicate_chunk (g : Bool) (f : Nat → Bool) (fuel n i : Nat)
    (hn : 0 < n) :
    batchLoop g f (fuel + 1) (List.replicate n ()) i =
      (let size := min BATCH_SIZE n
       let failing := (List.range size).filterMap
         (fun j => if f (i + j) then some (i + j) else none)
       let here : Nat × Nat × List Nat :=
         if failing.isEmpty then (size, 0, [])
         else if g then (0, failing.length, failing)
         else (size - failing.length, failing.length, failing)
       let later := batchLoop g f fuel (List.replicate (n - BATCH_SIZE) ())
         (i + BATCH_SIZE)
       (here.1 + later.1, here.2.1 + later.2.1, here.2.2 ++ later.2.2)) := by
  obtain ⟨m, rfl⟩ : ∃ m, n = m + 1 := ⟨n - 1, by omega⟩
  rw [List.replicate_succ, batchLoop, ← List.replicate_succ, List.take_replicate,
    List.drop_replicate, List.length_replicate]

/-- Closed form of the failing-index scan of one chunk when exactly the
global index t can fail: the chunk starting at i with m records reports
the singleton t exactly when t falls inside the chunk. -/
theorem filterMap_range_eqIdx (t i m : Nat) :
    (List.range m).filterMap
      (fun j => if (i + j == t) then some (i + j) else none) =
      if i ≤ t ∧ t < i + m then [t] else [] := by
  induction m with
  | zero => simp
  | succ m ih =>
    rw [List.range_succ, List.filterMap_append, ih]
    by_cases h : i + m = t
    · have h1 : (i + m == t) = true := by simp [h]
      rw [if_pos (by omega : i ≤ t ∧ t < i + (m + 1))]
      rw [if_neg (by omega : ¬(i ≤ t ∧ t < i + m))]
      simp [h1, h]
    · have h1 : (i + m == t) = false := by simp [h]
      by_cases h2 : i ≤ t ∧ t < i + m
      · rw [if_pos h2, if_pos (by omega : i ≤ t ∧ t < i + (m + 1))]
        simp [h1, h]
      · rw [if_neg h2, if_neg (by omega : ¬(i ≤ t ∧ t < i + (m + 1)))]
        simp [h1, h]

/-- Ingestion of 2500 records with the single record at global index 1500
rejected by a store whose bulk error carries per-record writeErrors: the
loop records the error but never counts the 999 successfully persisted
records of the failing chunk, reporting 1500 insertions. -/
theorem ingest2500_granular :
    ingestReport true (fun j => j == 1500) (List.replicate 2500 ()) =
      (1500, 1, [1500]) := by
  have s3 := batchLoop_replicate_chunk true (fun j => j == 1500) 2497 500 2000
    (by norm_num)
  rw [show (500 : Nat) - BATCH_SIZE = 0 by norm_num [BATCH_SIZE],
    List.replicate_zero, batchLoop_nil] at s3
  simp only [filterMap_range_eqIdx, BATCH_SIZE] at s3
  norm_num at s3
  have s2 := batchLoop_replicate_chunk true (fun j => j == 1500) 2498 1500 1000
    (by norm_num)
  rw [show (1500 : Nat) - BATCH_SIZE = 500 by norm_num [BATCH_SIZE]] at s2
  simp only [filterMap_range_eqIdx, BATCH_SIZE] at s2
  norm_num at s2
  rw [s3] at s2
  have s1 := batchLoop_replicate_chunk true (fun j => j == 1500) 2499 2500 0
    (by norm_num)
  rw [show (2500 : Nat) - BATCH_SIZE = 1500 by norm_num [BATCH_SIZE]] at s1
  simp only [filterMap_range_eqIdx, BATCH_SIZE] at s1
  norm_num at s1
  rw [s2] at s1
  simp only [ingestReport, List.length_replicate]
  rw [s1]
  norm_num

/-- Ingestion of 2500 records with the single record at global index 1500
rejected by a store whose bulk error carries no per-record detail: the
fallback inserts the chunk one record at a time and the report counts
2499 insertions, one error, and the failing index. -/
theorem ingest2500_fallback :
    ingestReport false (fun j => j == 1500) (List.replicate 2500 ()) =
      (2499, 1, [1500]) := by
  have s3 := batchLoop_replicate_chunk false (fun j => j == 1500) 2497 500 2000
    (by norm_num)
  rw [show (500 : Nat) - BATCH_SIZE = 0 by norm_num [BATCH_SIZE],
    List.replicate_zero, batchLoop_nil] at s3
  simp only [filterMap_range_eqIdx, BATCH_SIZE] at s3
  norm_num at s3
  have s2 := batchLoop_replicate_chunk false (fun j => j == 1500) 2498 1500 1000
    (by norm_num)
  rw [show (1500 : Nat) - BATCH_SIZE = 500 by norm_num [BATCH_SIZE]] at s2
  simp only [filterMap_range_eqIdx, BATCH_SIZE] at s2
  norm_num at s2
  rw [s3] at s2
  have s1 := batchLoop_replicate_chunk false (fun j => j == 1500) 2499 2500 0
    (by norm_num)
  rw [show (2500 : Nat) - BATCH_SIZE = 1500 by norm_num [BATCH_SIZE]] at s1
  simp only [filterMap_range_eqIdx, BATCH_SIZE] at s1
  norm_num at s1
  rw [s2] at s1
  simp only [ingestReport, List.length_replicate]
  rw [s1]
  norm_num

/-- C3.  For 2500 records at batch size 1000 the loop reports three
batches; when exactly the record at validated index 1500 (inside chunk 2)
fails at the store and the bulk error carries per-record writeErrors —
the reporting mode the code handles first and the one a single
duplicate-key failure produces — the response counts only 1500
insertions, because the 999 persisted records of the failing chunk are
never added; the claimed 2499 arises only in the no-detail fallback mode.
In both modes the error count is 1, the failing index 1500 is reported,
and the error-detail list is truncated to at most ten entries. -/
theorem c3_batch_ingest_counts :
    totalBatches 2500 = 3 ∧
    ingestReport true (fun j => j == 1500) (List.replicate 2500 ()) =
      (1500, 1, [1500]) ∧
    ingestReport false (fun j => j == 1500) (List.replicate 2500 ()) =
      (2499, 1, [1500]) ∧
    (∀ (g : Bool) (f : Nat → Bool) (recs : List Unit),
      (ingestReport g f recs).2.2.length ≤ 10) := by
  refine ⟨by norm_num [totalBatches, BATCH_SIZE], ingest2500_granular,
    ingest2500_fallback, ?_⟩
  intro g f recs
  simp only [ingestReport]
  exact List.length_take_le 10 _

/-- Witness for C3: the truncation clause applied at a concrete empty
ingestion. -/
theorem c3_batch_ingest_counts_witness :
    (ingestReport true (fun _ => false) []).2.2.length ≤ 10 :=
  c3_batch_ingest_counts.2.2.2 true (fun _ => false) []

/-- C9.  The script classifier returns false on a pure-Latin query and
true on a Devanagari query; any string containing at least one code point
of the Devanagari block classifies as secondary-script; and the search
handler matches a Devanagari query against name_mr and any other query
against name. -/
theorem c9_script_classification :
    isMarathiText "Anil" = false ∧
    isMarathiText "अनिल" = true ∧
    (∀ s : String, (∃ c ∈ s.data, 0x900 ≤ c.toNat ∧ c.toNat ≤ 0x97F) →
      isMarathiText s = true) ∧
    searchFieldFor "Anil" = "name" ∧
    searchFieldFor "अनिल" = "name_mr" := by
  refine ⟨by decide, by decide, ?_, by decide, by decide⟩
  rintro s ⟨c, hc, h1, h2⟩
  rw [isMarathiText, List.any_eq_true]
  refine ⟨c, hc, ?_⟩
  simp only [Bool.and_eq_true, decide_eq_true_eq]
  exact ⟨h1, h2⟩

/-- Witness for C9: a mixed Latin-Devanagari string classifies as
secondary-script. -/
theorem c9_script_classification_witness :
    isMarathiText "Anil अ" = true :=
  c9_script_classification.2.2.1 "Anil अ"
    ⟨'अ', by decide, by decide, by decide⟩

/-- Witness for C7: a sheet with a title row above the real header row;
the locator picks index 1 and its score dominates the title row's. -/
theorem c7_header_locator_argmax_witness :
    bestHeaderRowIndex
        [["Voter List Report 2024"], ["Sr No", "Name_En", "Name_Mr", "Age"],
         ["1", "John", "जॉन", "30"]] <
      min ([["Voter List Report 2024"], ["Sr No", "Name_En", "Name_Mr", "Age"],
         ["1", "John", "जॉन", "30"]] : List (List String)).length 20 ∧
    scoreRow (([["Voter List Report 2024"], ["Sr No", "Name_En", "Name_Mr", "Age"],
         ["1", "John", "जॉन", "30"]] : List (List String)).getD 0 []) ≤
      scoreRow (([["Voter List Report 2024"], ["Sr No", "Name_En", "Name_Mr", "Age"],
         ["1", "John", "जॉन", "30"]] : List (List String)).getD
        (bestHeaderRowIndex
          [["Voter List Report 2024"], ["Sr No", "Name_En", "Name_Mr", "Age"],
           ["1", "John", "जॉन", "30"]]) []) :=
  ⟨(c7_header_locator_argmax
      [["Voter List Report 2024"], ["Sr No", "Name_En", "Name_Mr", "Age"],
       ["1", "John", "जॉन", "30"]] (by decide)).1,
   ((c7_header_locator_argmax
      [["Voter List Report 2024"], ["Sr No", "Name_En", "Name_Mr", "Age"],
       ["1", "John", "जॉन", "30"]] (by decide)).2 0 (by decide)).1⟩
